import Mathlib

set_option maxHeartbeats 1000000

/-!
Shallow embedding of the MetalLB layer-2 announcer
(`internal/layer2/announcer.go`): the announcement registry and public
facade (`SetBalancer`, `DeleteBalancer`, `AnnounceName`, `shouldAnnounce`),
the gratuitous-announcement path (`gratuitous`), the re-announce scheduler
(`spamLoop`), and the interface tracker (`updateInterfaces`).

Modeling conventions:
* Go `int` values become `Int`; Go map-with-default-zero reads of
  `ipRefcnt` become a total function `String → Int` that is `0` outside
  the written keys (exactly the Go semantics: reading a missing key of a
  `map[string]int` yields `0`, and the code never `delete`s from
  `ipRefcnt`).
* The `ips` map (`map[string][]net.IP`) becomes an association list keyed
  by the service name; the code inserts with `a.ips[name] = append(...)`
  and removes with `delete(a.ips, name)`.
* Side effects on the responders (`Watch`, `Unwatch`, `Gratuitous`) and
  the deferred `doSpam` enqueue become an explicit event list returned in
  call order.  Responders are identified by their interface index (the
  key of the Go `arps`/`ndps` maps).
-/

/-- Model of a valid `net.IP` (a 4- or 16-byte address).  `str` is the
canonical text of the address — the value of Go's `ip.String()`, which is
what the registry's `ipRefcnt` map and the scheduler's deadline map use
as key; `v4` records whether `ip.To4() != nil`.  For valid addresses
`String` is injective and `net.ParseIP` inverts it, so `str` fully
identifies the address and `net.IP.Equal` coincides with equality of
`str`. -/
structure NetIP where
  str : String
  v4 : Bool
deriving DecidableEq, Repr

/-- `net.IP.Equal`: for valid addresses, equality of the canonical
text. -/
def NetIP.Equal (x y : NetIP) : Bool :=
  x.str == y.str

/-- `dropReason` (announcer.go:289-301): why a layer-2 protocol packet
was not responded to. -/
inductive DropReason where
  | dropReasonNone
  | dropReasonClosed
  | dropReasonError
  | dropReasonARPReply
  | dropReasonMessageType
  | dropReasonNoSourceLL
  | dropReasonEthernetDestination
  | dropReasonAnnounceIP
deriving DecidableEq, Repr

export DropReason (dropReasonNone dropReasonAnnounceIP)

/-- Observable side effects of the announcer on its responders and on the
spam channel, in the order the code performs them.  The `Nat` is the
interface index of the responder (the key of the `arps`/`ndps` maps). -/
inductive Event where
  | watch : Nat → NetIP → Event
  | unwatch : Nat → NetIP → Event
  | gratARP : Nat → NetIP → Event
  | gratNDP : Nat → NetIP → Event
  | spam : NetIP → Event
deriving DecidableEq, Repr

/-- The `Announce` struct (announcer.go:18-30).  The `arps`/`ndps` maps
of per-interface responders are modeled by the lists of their keys
(interface indexes); the responders' internal socket state is out of
scope. -/
structure Announce where
  arps : List Nat
  ndps : List Nat
  ips : List (String × List NetIP)
  ipRefcnt : String → Int

/-- Point update of a refcount table (`a.ipRefcnt[k] = v`). -/
def updateFn (f : String → Int) (k : String) (v : Int) : String → Int :=
  fun s => if s = k then v else f s

/-- `a.ips[name] = append(a.ips[name], ip)`: append to the entry of
`name`, creating it when missing. -/
def upsertIPs (m : List (String × List NetIP)) (name : String) (ip : NetIP) :
    List (String × List NetIP) :=
  match m with
  | [] => [(name, [ip])]
  | (k, v) :: rest =>
    if k = name then (k, v ++ [ip]) :: rest
    else (k, v) :: upsertIPs rest name ip

/-- `delete(a.ips, name)`. -/
def eraseName (m : List (String × List NetIP)) (name : String) :
    List (String × List NetIP) :=
  m.filter (fun e => !(e.1 == name))

/-- `SetBalancer` (announcer.go:220-250).  The loop at lines 228-234
compares each stored entry with itself and `continue`s, so it has no
effect on the state and contributes nothing here.  Events appear in
execution order: the NDP `Watch` calls (performed only when the new
refcount is not `> 1`), then the `doSpam` enqueue, which was deferred at
line 222 and therefore runs last. -/
def Announce.SetBalancer (a : Announce) (name : String) (ip : NetIP) :
    Announce × List Event :=
  let ips1 := upsertIPs a.ips name ip
  let newCnt := a.ipRefcnt ip.str + 1
  let rc1 := updateFn a.ipRefcnt ip.str newCnt
  let watches :=
    if newCnt > 1 then [] else a.ndps.map (fun i => Event.watch i ip)
  ({ a with ips := ips1, ipRefcnt := rc1 }, watches ++ [Event.spam ip])

/-- The loop of `DeleteBalancer` (announcer.go:262-275): walk the IPs
stored under the deleted name in order; decrement each refcount; if the
decremented refcount is still `> 0`, return at once (later IPs are not
touched); otherwise `Unwatch` the IP on every NDP responder and
continue. -/
def deleteLoop (ndps : List Nat) :
    (String → Int) → List NetIP → (String → Int) × List Event
  | rc, [] => (rc, [])
  | rc, ip :: rest =>
    let c := rc ip.str - 1
    let rc1 := updateFn rc ip.str c
    if c > 0 then (rc1, [])
    else
      let r := deleteLoop ndps rc1 rest
      (r.1, ndps.map (fun i => Event.unwatch i ip) ++ r.2)

/-- `DeleteBalancer` (announcer.go:253-277): if `name` is absent, do
nothing; otherwise remove the name's entry first, then run the refcount
loop over the detached IP list. -/
def Announce.DeleteBalancer (a : Announce) (name : String) :
    Announce × List Event :=
  match a.ips.lookup name with
  | none => (a, [])
  | some l =>
    let ips1 := eraseName a.ips name
    let r := deleteLoop a.ndps a.ipRefcnt l
    ({ a with ips := ips1, ipRefcnt := r.1 }, r.2)

/-- `AnnounceName` (announcer.go:280-285). -/
def Announce.AnnounceName (a : Announce) (name : String) : Bool :=
  (a.ips.lookup name).isSome

/-- `shouldAnnounce` (announcer.go:206-217): scan every name's IP list;
answer `dropReasonNone` on the first entry equal to `ip`, else
`dropReasonAnnounceIP`. -/
def Announce.shouldAnnounce (a : Announce) (ip : NetIP) : DropReason :=
  if a.ips.any (fun e => e.2.any (fun i => i.Equal ip)) then dropReasonNone
  else dropReasonAnnounceIP

/-- `gratuitous` (announcer.go:181-204): when the refcount of `ip` is
`≤ 0` emit nothing; otherwise emit a gratuitous frame on every responder
of the matching address family (`To4() != nil` selects ARP, else
NDP). -/
def Announce.gratuitous (a : Announce) (ip : NetIP) : List Event :=
  if a.ipRefcnt ip.str ≤ 0 then []
  else if ip.v4 then a.arps.map (fun i => Event.gratARP i ip)
  else a.ndps.map (fun i => Event.gratNDP i ip)

/-! ### Re-announce scheduler (`spamLoop`, announcer.go:139-175)

The loop's private map from `ip.String()` to the spam stop time becomes
an association list of `(ip, deadline)`; we store the `NetIP` itself in
place of its string key because for valid addresses `net.ParseIP`
(applied at line 167) inverts `String()`.  Times are in milliseconds, so
the 5-second window is `5000` and the ticker period is `1100`.  `ticker`
is `some p` when the ticker is armed with period `p` ms and `none` when
stopped.  Each handler returns the list of IPs passed to
`a.gratuitous` (the frames actually emitted are `Announce.gratuitous` of
those IPs). -/

structure SpamState where
  m : List (NetIP × Int)
  ticker : Option Int
deriving DecidableEq, Repr

/-- Read of the deadline map at key `ip.String()`. -/
def findDeadline (m : List (NetIP × Int)) (key : String) : Option Int :=
  match m with
  | [] => none
  | (j, t) :: rest => if j.str = key then some t else findDeadline rest key

/-- Write `m[ipStr] = t` in the deadline map. -/
def setDeadline (m : List (NetIP × Int)) (ip : NetIP) (t : Int) :
    List (NetIP × Int) :=
  match m with
  | [] => [(ip, t)]
  | (j, u) :: rest =>
    if j.str = ip.str then (ip, t) :: rest else (j, u) :: setDeadline rest ip t

/-- The `case ip := <-a.spamCh` branch (announcer.go:147-160): if the map
is empty, re-arm the ticker at 1100 ms; record whether `ip` is already
present; set its deadline to `now + 5000` ms; if it was absent, invoke
`gratuitous` right away. -/
def spamInput (s : SpamState) (ip : NetIP) (now : Int) :
    SpamState × List NetIP :=
  let t := if s.m = [] then some 1100 else s.ticker
  let present := (findDeadline s.m ip.str).isSome
  let m1 := setDeadline s.m ip (now + 5000)
  if present then ({ m := m1, ticker := t }, [])
  else ({ m := m1, ticker := t }, [ip])

/-- Body of the `case now := <-ticker.C` range (announcer.go:162-169):
entries whose stop time lies strictly in the past are deleted; every
other entry gets one `gratuitous` invocation.  (Go map iteration order
is unspecified; the list order stands in for it, and the properties we
prove are per-entry.) -/
def spamTickLoop (now : Int) :
    List (NetIP × Int) → List (NetIP × Int) × List NetIP
  | [] => ([], [])
  | (ip, stopT) :: rest =>
    let r := spamTickLoop now rest
    if now > stopT then r else ((ip, stopT) :: r.1, ip :: r.2)

/-- The whole tick branch (announcer.go:161-172): process the map, then
stop the ticker if the map is now empty. -/
def spamTick (s : SpamState) (now : Int) : SpamState × List NetIP :=
  let r := spamTickLoop now s.m
  ({ m := r.1, ticker := if r.1 = [] then none else s.ticker }, r.2)

/-! ### Interface tracker (`updateInterfaces`, announcer.go:55-137)

The OS-facing inputs of a scan cycle — `net.Interfaces()`, per-interface
addresses, the `/sys/class/net/<name>/master` probe and the NOARP bit of
`/sys/class/net/<name>/flags` — are presented as a list of snapshots.
Responder creation is modeled as always succeeding (creation failure
returns early and leaves the state as it was). -/

/-- One element of `ifi.Addrs()` that is a `*net.IPNet` (other address
types are skipped by the type assertion at announcer.go:91-94):
whether `ipaddr.IP.To4() != nil`, and whether
`ipaddr.IP.IsLinkLocalUnicast()`. -/
structure IfaceAddr where
  v4 : Bool
  linkLocalUnicast : Bool
deriving DecidableEq, Repr

/-- Snapshot of one interface as seen by a scan cycle. -/
structure Iface where
  index : Nat
  up : Bool
  broadcast : Bool
  hasMaster : Bool
  flagsNoARP : Bool
  addrs : List IfaceAddr
deriving DecidableEq, Repr

/-- Accumulator of one scan cycle: the responder sets under
construction, the `keepARP`/`keepNDP` eligibility sets, the indexes
where a new NDP responder was created this cycle, and the `Watch` calls
performed on newly created responders.  The source's NDP-creation branch
(announcer.go:112-120) stores the responder and logs, performing no
`Watch` call, so `watchCalls` is never extended. -/
structure ScanState where
  arps : List Nat
  ndps : List Nat
  keepARP : List Nat
  keepNDP : List Nat
  createdNDP : List Nat
  watchCalls : List (Nat × NetIP)
deriving DecidableEq, Repr

/-- Body of the per-interface loop (announcer.go:66-121): skip
interfaces that are down, enslaved, or NOARP; compute ARP/NDP
eligibility from the assigned addresses; create an ARP (resp. NDP)
responder when eligible and not already present. -/
def scanIface (s : ScanState) (ifi : Iface) : ScanState :=
  if !ifi.up then s
  else if ifi.hasMaster then s
  else if ifi.flagsNoARP then s
  else
    let kA := ifi.addrs.any (fun ad => ad.v4 && ifi.broadcast)
    let kN := ifi.addrs.any (fun ad => ad.linkLocalUnicast)
    let s1 := { s with
      keepARP := if kA then s.keepARP ++ [ifi.index] else s.keepARP,
      keepNDP := if kN then s.keepNDP ++ [ifi.index] else s.keepNDP }
    let s2 :=
      if kA && !(s1.arps.contains ifi.index) then
        { s1 with arps := s1.arps ++ [ifi.index] }
      else s1
    if kN && !(s2.ndps.contains ifi.index) then
      { s2 with ndps := s2.ndps ++ [ifi.index],
                createdNDP := s2.createdNDP ++ [ifi.index] }
    else s2

/-- `updateInterfaces` (announcer.go:55-137): run the per-interface
loop, then close and delete every responder whose interface is no longer
in the corresponding keep set (announcer.go:123-136). -/
def Announce.updateInterfaces (a : Announce) (ifs : List Iface) :
    Announce × ScanState :=
  let s0 : ScanState :=
    { arps := a.arps, ndps := a.ndps, keepARP := [], keepNDP := [],
      createdNDP := [], watchCalls := [] }
  let s := ifs.foldl scanIface s0
  let arps1 := s.arps.filter (fun i => s.keepARP.contains i)
  let ndps1 := s.ndps.filter (fun i => s.keepNDP.contains i)
  ({ a with arps := arps1, ndps := ndps1 },
   { s with arps := arps1, ndps := ndps1 })

/-! ### Reachable registry states

The claims about invariants quantify over finite sequences of
`SetBalancer`/`DeleteBalancer` calls with no other activity.  `New`
(announcer.go:33-46) starts with empty `ips` and `ipRefcnt` maps; the
responder maps are populated only by the interface tracker, which never
touches `ips`/`ipRefcnt`, so we let the run start from an arbitrary
responder configuration. -/

/-- One public-facade call. -/
inductive Call where
  | set : String → NetIP → Call
  | del : String → Call
deriving DecidableEq, Repr

/-- Apply one call, discarding the emitted events. -/
def applyCall (a : Announce) : Call → Announce
  | Call.set n ip => (a.SetBalancer n ip).1
  | Call.del n => (a.DeleteBalancer n).1

/-- Apply a sequence of calls in order. -/
def run (a : Announce) (cs : List Call) : Announce :=
  cs.foldl applyCall a

/-- The state `New` produces, up to the responder sets (which only the
interface tracker changes). -/
def initState (arps ndps : List Nat) : Announce :=
  { arps := arps, ndps := ndps, ips := [], ipRefcnt := fun _ => 0 }

/-- A registry state reachable by some finite sequence of
`SetBalancer`/`DeleteBalancer` calls from a fresh announcer. -/
def Reachable (a : Announce) : Prop :=
  ∃ arps ndps cs, run (initState arps ndps) cs = a

/-- Number of occurrences of the address with canonical text `key`
across all name lists of the `ips` map. -/
def occList (m : List (String × List NetIP)) (key : String) : Nat :=
  (m.map (fun e => e.2.countP (fun i => i.str == key))).sum

/-- The registry invariant that actually holds: the refcount of every
address bounds its number of occurrences from above (equality can be
broken by `DeleteBalancer`'s early return). -/
def RegInv (a : Announce) : Prop :=
  ∀ key, (occList a.ips key : Int) ≤ a.ipRefcnt key

/-- Placeholder address used only as the default of `List.getD`. -/
def dIP : NetIP :=
  ⟨"", false⟩

lemma updateFn_same (f : String → Int) (k : String) (v : Int) :
    updateFn f k v k = v := by
  simp [updateFn]

lemma updateFn_ne (f : String → Int) (k : String) (v : Int) (s : String)
    (h : s ≠ k) : updateFn f k v s = f s := by
  simp [updateFn, h]

lemma countP_key_cons_self (ip : NetIP) (l : List NetIP) :
    (ip :: l).countP (fun i => i.str == ip.str)
      = l.countP (fun i => i.str == ip.str) + 1 := by
  simp [List.countP_cons]

lemma countP_key_cons_ne (ip : NetIP) (l : List NetIP) (key : String)
    (h : ip.str ≠ key) :
    (ip :: l).countP (fun i => i.str == key)
      = l.countP (fun i => i.str == key) := by
  simp [List.countP_cons, h]

lemma deleteLoop_nil (ndps : List Nat) (rc : String → Int) :
    deleteLoop ndps rc [] = (rc, []) :=
  rfl

lemma deleteLoop_cons_stop (ndps : List Nat) (rc : String → Int) (ip : NetIP)
    (rest : List NetIP) (h : rc ip.str - 1 > 0) :
    deleteLoop ndps rc (ip :: rest) = (updateFn rc ip.str (rc ip.str - 1), []) := by
  simp [deleteLoop, h]

lemma deleteLoop_cons_go (ndps : List Nat) (rc : String → Int) (ip : NetIP)
    (rest : List NetIP) (h : ¬ rc ip.str - 1 > 0) :
    deleteLoop ndps rc (ip :: rest) =
      ((deleteLoop ndps (updateFn rc ip.str (rc ip.str - 1)) rest).1,
        ndps.map (fun i => Event.unwatch i ip)
          ++ (deleteLoop ndps (updateFn rc ip.str (rc ip.str - 1)) rest).2) := by
  simp [deleteLoop, h]

/-- Behavior of the `DeleteBalancer` loop: some prefix of length `k` of
the IP list is processed; each processed occurrence is decremented
exactly once (and nothing else changes); every processed entry before
the last one reached a non-positive refcount; when the loop stopped
early, the last processed entry kept a positive refcount; and every
`Unwatch` event concerns a processed IP. -/
lemma deleteLoop_spec (ndps : List Nat) (l : List NetIP) (rc : String → Int) :
    ∃ k, k ≤ l.length ∧
      (∀ key, (deleteLoop ndps rc l).1 key
          = rc key - ((l.take k).countP (fun i => i.str == key) : Int)) ∧
      (∀ i, i + 1 < k →
        rc (l.getD i dIP).str
          - (((l.take (i+1)).countP (fun j => j.str == (l.getD i dIP).str) : Nat) : Int)
          ≤ 0) ∧
      (k < l.length → 1 ≤ k ∧
        0 < rc (l.getD (k-1) dIP).str
          - (((l.take k).countP (fun j => j.str == (l.getD (k-1) dIP).str) : Nat) : Int)) ∧
      (∀ e ∈ (deleteLoop ndps rc l).2,
        ∃ ifx ip, e = Event.unwatch ifx ip ∧ ip ∈ l.take k) := by
  induction l generalizing rc with
  | nil =>
    exact ⟨0, by simp, fun key => by simp [deleteLoop_nil],
      fun i hi => by omega, fun h => absurd h (by simp),
      fun e he => by simp [deleteLoop_nil] at he⟩
  | cons ip rest ih =>
    by_cases hc : rc ip.str - 1 > 0
    · refine ⟨1, by simp, ?_, ?_, ?_, ?_⟩
      · intro key
        rw [deleteLoop_cons_stop ndps rc ip rest hc]
        show updateFn rc ip.str (rc ip.str - 1) key = _
        rw [show (ip :: rest).take 1 = [ip] from rfl]
        by_cases h : key = ip.str
        · subst h
          rw [updateFn_same, countP_key_cons_self]
          simp only [List.countP_nil]
          push_cast
          omega
        · rw [updateFn_ne _ _ _ _ h,
            countP_key_cons_ne _ _ _ (fun hh => h hh.symm)]
          simp only [List.countP_nil]
          push_cast
          omega
      · intro i hi
        omega
      · intro _
        refine ⟨le_refl 1, ?_⟩
        rw [show (ip :: rest).getD (1-1) dIP = ip from rfl,
          show (ip :: rest).take 1 = [ip] from rfl, countP_key_cons_self]
        simp only [List.countP_nil]
        push_cast
        omega
      · intro e he
        rw [deleteLoop_cons_stop ndps rc ip rest hc] at he
        simp at he
    · obtain ⟨k, hklen, h1, h2, h3, h4⟩ :=
        ih (updateFn rc ip.str (rc ip.str - 1))
      refine ⟨k + 1, by simpa using Nat.succ_le_succ hklen, ?_, ?_, ?_, ?_⟩
      · intro key
        rw [deleteLoop_cons_go ndps rc ip rest hc]
        show (deleteLoop ndps (updateFn rc ip.str (rc ip.str - 1)) rest).1 key = _
        rw [h1 key, List.take_succ_cons]
        by_cases h : key = ip.str
        · subst h
          rw [updateFn_same, countP_key_cons_self]
          push_cast
          omega
        · rw [updateFn_ne _ _ _ _ h,
            countP_key_cons_ne _ _ _ (fun hh => h hh.symm)]
      · intro i hi
        match i with
        | 0 =>
          rw [show (ip :: rest).getD 0 dIP = ip from rfl,
            show (ip :: rest).take (0+1) = [ip] from rfl, countP_key_cons_self]
          simp only [List.countP_nil]
          push_cast
          omega
        | Nat.succ j =>
          have hj := h2 j (by omega)
          rw [List.getD_cons_succ, List.take_succ_cons]
          by_cases h : (rest.getD j dIP).str = ip.str
          · rw [h] at hj ⊢
            rw [updateFn_same] at hj
            rw [countP_key_cons_self]
            push_cast at hj ⊢
            omega
          · rw [updateFn_ne _ _ _ _ h] at hj
            rw [countP_key_cons_ne _ _ _ (fun hh => h hh.symm)]
            omega
      · intro hlt
        have hkr : k < rest.length := by
          simpa using Nat.lt_of_succ_lt_succ hlt
        obtain ⟨hk1, hpos⟩ := h3 hkr
        refine ⟨by omega, ?_⟩
        have hidx : k + 1 - 1 = (k - 1) + 1 := by omega
        rw [hidx, List.getD_cons_succ, List.take_succ_cons]
        by_cases h : (rest.getD (k-1) dIP).str = ip.str
        · rw [h] at hpos ⊢
          rw [updateFn_same] at hpos
          rw [countP_key_cons_self]
          push_cast at hpos ⊢
          omega
        · rw [updateFn_ne _ _ _ _ h] at hpos
          rw [countP_key_cons_ne _ _ _ (fun hh => h hh.symm)]
          omega
      · intro e he
        rw [deleteLoop_cons_go ndps rc ip rest hc] at he
        rcases List.mem_append.1 he with hm | hm
        · obtain ⟨ifx, -, rfl⟩ := List.mem_map.1 hm
          refine ⟨ifx, ip, rfl, ?_⟩
          rw [List.take_succ_cons]
          exact List.mem_cons_self ip _
        · obtain ⟨ifx, j, rfl, hj⟩ := h4 e hm
          refine ⟨ifx, j, rfl, ?_⟩
          rw [List.take_succ_cons]
          exact List.mem_cons_of_mem ip hj

lemma DeleteBalancer_none (a : Announce) (name : String)
    (h : a.ips.lookup name = none) : a.DeleteBalancer name = (a, []) := by
  simp [Announce.DeleteBalancer, h]

lemma DeleteBalancer_some (a : Announce) (name : String) (l : List NetIP)
    (h : a.ips.lookup name = some l) :
    a.DeleteBalancer name =
      ({ a with ips := eraseName a.ips name,
                ipRefcnt := (deleteLoop a.ndps a.ipRefcnt l).1 },
       (deleteLoop a.ndps a.ipRefcnt l).2) := by
  simp [Announce.DeleteBalancer, h]

lemma occList_nil (key : String) : occList [] key = 0 :=
  rfl

lemma occList_cons (k : String) (v : List NetIP)
    (rest : List (String × List NetIP)) (key : String) :
    occList ((k, v) :: rest) key
      = v.countP (fun i => i.str == key) + occList rest key := by
  simp [occList]

lemma occList_upsertIPs_self (m : List (String × List NetIP)) (name : String)
    (ip : NetIP) :
    occList (upsertIPs m name ip) ip.str = occList m ip.str + 1 := by
  induction m with
  | nil => simp [upsertIPs, occList, List.countP_cons]
  | cons e rest ih =>
    obtain ⟨k, v⟩ := e
    by_cases h : k = name
    · simp only [upsertIPs, if_pos h, occList_cons, List.countP_append]
      simp [List.countP_cons]
      omega
    · simp only [upsertIPs, if_neg h, occList_cons, ih]
      omega

lemma occList_upsertIPs_ne (m : List (String × List NetIP)) (name : String)
    (ip : NetIP) (key : String) (h : ip.str ≠ key) :
    occList (upsertIPs m name ip) key = occList m key := by
  induction m with
  | nil => simp [upsertIPs, occList, List.countP_cons, h]
  | cons e rest ih =>
    obtain ⟨k, v⟩ := e
    by_cases hk : k = name
    · simp only [upsertIPs, if_pos hk, occList_cons, List.countP_append]
      simp [List.countP_cons, h]
    · simp only [upsertIPs, if_neg hk, occList_cons, ih]

lemma occList_filter_le (m : List (String × List NetIP))
    (p : String × List NetIP → Bool) (key : String) :
    occList (m.filter p) key ≤ occList m key := by
  induction m with
  | nil => simp
  | cons e rest ih =>
    by_cases h : p e
    · rw [List.filter_cons_of_pos h]
      obtain ⟨k, v⟩ := e
      rw [occList_cons, occList_cons]
      omega
    · rw [List.filter_cons_of_neg (by simpa using h)]
      obtain ⟨k, v⟩ := e
      rw [occList_cons]
      omega

lemma occList_eraseName (m : List (String × List NetIP)) (name : String)
    (l : List NetIP) (h : m.lookup name = some l) (key : String) :
    occList (eraseName m name) key + l.countP (fun i => i.str == key)
      ≤ occList m key := by
  induction m with
  | nil => simp [List.lookup] at h
  | cons e rest ih =>
    obtain ⟨k, v⟩ := e
    by_cases hk : name = k
    · have hbeq : (name == k) = true := by simpa [beq_iff_eq] using hk
      have hv : v = l := by
        simpa [List.lookup, hbeq] using h
      subst hv
      have hdrop : eraseName ((k, v) :: rest) name = eraseName rest name := by
        simp [eraseName, List.filter_cons, beq_iff_eq, hk.symm]
      rw [hdrop, occList_cons]
      have := occList_filter_le rest (fun e => !(e.1 == name)) key
      simp only [eraseName]
      omega
    · have hbeq : (name == k) = false := by
        simpa [beq_eq_false_iff_ne] using hk
      have hrest : rest.lookup name = some l := by
        simpa [List.lookup, hbeq] using h
      have hkn : k ≠ name := fun hh => hk hh.symm
      have hkeep : eraseName ((k, v) :: rest) name
          = (k, v) :: eraseName rest name := by
        simp [eraseName, List.filter_cons, hkn]
      rw [hkeep, occList_cons, occList_cons]
      have := ih hrest
      omega

lemma countP_take_le (l : List NetIP) (k : Nat) (p : NetIP → Bool) :
    (l.take k).countP p ≤ l.countP p := by
  conv_rhs => rw [← List.take_append_drop k l]
  rw [List.countP_append]
  omega

lemma regInv_SetBalancer (a : Announce) (h : RegInv a) (name : String)
    (ip : NetIP) : RegInv (a.SetBalancer name ip).1 := by
  intro key
  show (occList (upsertIPs a.ips name ip) key : Int)
    ≤ updateFn a.ipRefcnt ip.str (a.ipRefcnt ip.str + 1) key
  by_cases hk : key = ip.str
  · subst hk
    rw [updateFn_same, occList_upsertIPs_self]
    have := h ip.str
    push_cast
    omega
  · rw [updateFn_ne _ _ _ _ hk,
      occList_upsertIPs_ne _ _ _ _ (fun hh => hk hh.symm)]
    exact h key

lemma regInv_DeleteBalancer (a : Announce) (h : RegInv a) (name : String) :
    RegInv (a.DeleteBalancer name).1 := by
  cases hl : a.ips.lookup name with
  | none =>
    rw [DeleteBalancer_none a name hl]
    exact h
  | some l =>
    rw [DeleteBalancer_some a name l hl]
    intro key
    obtain ⟨k, -, h1, -, -, -⟩ := deleteLoop_spec a.ndps l a.ipRefcnt
    show (occList (eraseName a.ips name) key : Int)
      ≤ (deleteLoop a.ndps a.ipRefcnt l).1 key
    rw [h1 key]
    have hE := occList_eraseName a.ips name l hl key
    have hT := countP_take_le l k (fun i => i.str == key)
    have hh := h key
    omega

lemma regInv_applyCall (a : Announce) (c : Call) (h : RegInv a) :
    RegInv (applyCall a c) := by
  cases c with
  | set n ip => exact regInv_SetBalancer a h n ip
  | del n => exact regInv_DeleteBalancer a h n

lemma regInv_run (cs : List Call) (a : Announce) (h : RegInv a) :
    RegInv (run a cs) := by
  induction cs generalizing a with
  | nil => exact h
  | cons c rest ih => exact ih (applyCall a c) (regInv_applyCall a c h)

lemma regInv_initState (arps ndps : List Nat) : RegInv (initState arps ndps) := by
  intro key
  simp [initState, occList_nil]

lemma regInv_reachable (a : Announce) (h : Reachable a) : RegInv a := by
  obtain ⟨arps, ndps, cs, rfl⟩ := h
  exact regInv_run cs (initState arps ndps) (regInv_initState arps ndps)

lemma lookup_upsertIPs (m : List (String × List NetIP)) (name : String)
    (ip : NetIP) :
    (upsertIPs m name ip).lookup name
      = some (((m.lookup name).getD []) ++ [ip]) := by
  induction m with
  | nil => simp [upsertIPs, List.lookup]
  | cons e rest ih =>
    obtain ⟨k, v⟩ := e
    by_cases h : k = name
    · subst h
      simp [upsertIPs, List.lookup]
    · have hb : (name == k) = false := by
        simpa [beq_eq_false_iff_ne] using (fun hh => h hh.symm : name ≠ k)
      simp [upsertIPs, h, List.lookup, hb, ih]

lemma lookup_eraseName (m : List (String × List NetIP)) (name : String) :
    (eraseName m name).lookup name = none := by
  induction m with
  | nil => simp [eraseName]
  | cons e rest ih =>
    obtain ⟨k, v⟩ := e
    by_cases h : k = name
    · subst h
      simpa [eraseName, List.filter_cons] using ih
    · have hb : (name == k) = false := by
        simpa [beq_eq_false_iff_ne] using (fun hh => h hh.symm : name ≠ k)
      simp [eraseName, List.filter_cons, h, List.lookup, hb]
      simpa [eraseName] using ih

lemma any_Equal_iff_occ (m : List (String × List NetIP)) (ip : NetIP) :
    m.any (fun e => e.2.any (fun i => i.Equal ip)) = true
      ↔ 0 < occList m ip.str := by
  simp only [NetIP.Equal]
  induction m with
  | nil => simp [occList]
  | cons e rest ih =>
    obtain ⟨k, v⟩ := e
    rw [occList_cons]
    simp only [List.any_cons, Bool.or_eq_true, ih]
    constructor
    · rintro (hv | hrest)
      · rw [List.any_eq_true] at hv
        obtain ⟨i, hi, hp⟩ := hv
        have : 0 < v.countP (fun i => i.str == ip.str) :=
          List.countP_pos_iff.2 ⟨i, hi, hp⟩
        omega
      · omega
    · intro hpos
      by_cases hv : 0 < v.countP (fun i => i.str == ip.str)
      · left
        obtain ⟨i, hi, hp⟩ := List.countP_pos_iff.1 hv
        rw [List.any_eq_true]
        exact ⟨i, hi, hp⟩
      · right
        omega

lemma shouldAnnounce_eq_none_iff (a : Announce) (ip : NetIP) :
    a.shouldAnnounce ip = dropReasonNone ↔ 0 < occList a.ips ip.str := by
  rw [← any_Equal_iff_occ a.ips ip]
  unfold Announce.shouldAnnounce
  by_cases hb : a.ips.any (fun e => e.2.any (fun i => i.Equal ip)) = true
  · simp [hb]
  · simp [hb]

lemma findDeadline_setDeadline (m : List (NetIP × Int)) (ip : NetIP) (t : Int) :
    findDeadline (setDeadline m ip t) ip.str = some t := by
  induction m with
  | nil => simp [setDeadline, findDeadline]
  | cons e rest ih =>
    obtain ⟨j, u⟩ := e
    by_cases h : j.str = ip.str
    · simp [setDeadline, h, findDeadline]
    · simp [setDeadline, h, findDeadline, ih]

lemma spamTickLoop_eq (now : Int) (m : List (NetIP × Int)) :
    spamTickLoop now m
      = (m.filter (fun e => decide (¬ now > e.2)),
         (m.filter (fun e => decide (¬ now > e.2))).map Prod.fst) := by
  induction m with
  | nil => rfl
  | cons e rest ih =>
    obtain ⟨ip, stopT⟩ := e
    by_cases h : now > stopT
    · simp [spamTickLoop, ih, h, List.filter_cons]
    · have h2 : now ≤ stopT := by omega
      simp [spamTickLoop, ih, h, h2, List.filter_cons]

/-! ### Concrete fixtures used by counterexamples and witnesses -/

def ipA : NetIP :=
  ⟨"10.0.0.1", true⟩

def ipB : NetIP :=
  ⟨"10.0.0.2", true⟩

def ip6 : NetIP :=
  ⟨"2001:db8::1", false⟩

/-- `SetBalancer("n1", 10.0.0.1)`, `SetBalancer("n2", 10.0.0.1)`,
`SetBalancer("n2", 10.0.0.2)`, `DeleteBalancer("n2")`: the delete loop
decrements 10.0.0.1 to refcount 1 and returns early, so 10.0.0.2 keeps
refcount 1 while it no longer appears under any name. -/
def cexCalls : List Call :=
  [Call.set "n1" ipA, Call.set "n2" ipA, Call.set "n2" ipB, Call.del "n2"]

def aCex : Announce :=
  run (initState [] []) cexCalls

/-- Registry state with one name holding `[10.0.0.1, 10.0.0.2]` where
`10.0.0.1` is also referenced elsewhere (refcount 2). -/
def aC2 : Announce :=
  { arps := [], ndps := [3], ips := [("n", [ipA, ipB])],
    ipRefcnt := fun s =>
      if s = "10.0.0.1" then 2 else if s = "10.0.0.2" then 1 else 0 }

/-- State holding the IPv6 address `2001:db8::1` with refcount 1 and no
responders yet. -/
def a4 : Announce :=
  run (initState [] []) [Call.set "svc" ip6]

/-- An up, masterless, ARP-capable interface with an IPv6 link-local
address: NDP-eligible, so a scan creates an NDP responder for it. -/
def if6 : Iface :=
  { index := 1, up := true, broadcast := true, hasMaster := false,
    flagsNoARP := false, addrs := [{ v4 := false, linkLocalUnicast := true }] }

/-! ### The claims -/

/-- C1, counterexample: after the call sequence `cexCalls` the refcount
of `10.0.0.2` is 1 but `10.0.0.2` occurs 0 times across all name lists,
so the claimed equality `refcount[x] = Σ occurrences of x` fails
(`DeleteBalancer`'s early return removed the name's whole list but
decremented only the first IP). -/
theorem C1_refcount_eq_occurrences_cex :
    ¬ (aCex.ipRefcnt "10.0.0.2" = (occList aCex.ips "10.0.0.2" : Int)) := by
  decide

/-- C1, amended: after any finite sequence of `SetBalancer` and
`DeleteBalancer` calls (with no other activity), for every IP `x` the
stored refcount is at least the total number of occurrences of `x`
across all name lists; equality can fail (only upward) after a
`DeleteBalancer` that returned early. -/
theorem C1_refcount_ge_occurrences (arps ndps : List Nat) (cs : List Call)
    (key : String) :
    (occList (run (initState arps ndps) cs).ips key : Int)
      ≤ (run (initState arps ndps) cs).ipRefcnt key :=
  regInv_run cs (initState arps ndps) (regInv_initState arps ndps) key

/-- C2 (confirmed): `DeleteBalancer(name)` processes the IPs stored
under `name` in insertion order: some prefix of length `k` is processed,
each processed occurrence being decremented exactly once and every other
refcount left untouched; every processed entry before the last reached a
refcount `≤ 0` after its decrement; if the loop stopped before the end
of the list, the last processed IP is exactly the first whose refcount
remained `> 0` after its decrement; and the watch state is only ever
touched (via `Unwatch`) for processed IPs. -/
theorem C2_delete_stops_at_first_survivor (a : Announce) (name : String)
    (l : List NetIP) (h : a.ips.lookup name = some l) :
    ∃ k, k ≤ l.length ∧
      (∀ key, (a.DeleteBalancer name).1.ipRefcnt key
          = a.ipRefcnt key - ((l.take k).countP (fun i => i.str == key) : Int)) ∧
      (∀ i, i + 1 < k →
        a.ipRefcnt (l.getD i dIP).str
          - ((l.take (i+1)).countP (fun j => j.str == (l.getD i dIP).str) : Int)
          ≤ 0) ∧
      (k < l.length → 1 ≤ k ∧
        0 < a.ipRefcnt (l.getD (k-1) dIP).str
          - ((l.take k).countP (fun j => j.str == (l.getD (k-1) dIP).str) : Int)) ∧
      (∀ e ∈ (a.DeleteBalancer name).2,
        ∃ ifx ip, e = Event.unwatch ifx ip ∧ ip ∈ l.take k) := by
  rw [DeleteBalancer_some a name l h]
  exact deleteLoop_spec a.ndps l a.ipRefcnt

/-- C2, witness: the characterization applied to the concrete state
`aC2`, whose delete loop stops at `10.0.0.1` (refcount 2 → 1). -/
theorem C2_witness :
    aC2.ips.lookup "n" = some [ipA, ipB] ∧
    (∃ k, k ≤ ([ipA, ipB] : List NetIP).length ∧
      (∀ key, (aC2.DeleteBalancer "n").1.ipRefcnt key
          = aC2.ipRefcnt key
            - ((([ipA, ipB] : List NetIP).take k).countP
                (fun i => i.str == key) : Int)) ∧
      (∀ i, i + 1 < k →
        aC2.ipRefcnt (([ipA, ipB] : List NetIP).getD i dIP).str
          - ((([ipA, ipB] : List NetIP).take (i+1)).countP
              (fun j => j.str == (([ipA, ipB] : List NetIP).getD i dIP).str) : Int)
          ≤ 0) ∧
      (k < ([ipA, ipB] : List NetIP).length → 1 ≤ k ∧
        0 < aC2.ipRefcnt (([ipA, ipB] : List NetIP).getD (k-1) dIP).str
          - ((([ipA, ipB] : List NetIP).take k).countP
              (fun j => j.str == (([ipA, ipB] : List NetIP).getD (k-1) dIP).str) : Int)) ∧
      (∀ e ∈ (aC2.DeleteBalancer "n").2,
        ∃ ifx ip, e = Event.unwatch ifx ip ∧ ip ∈ ([ipA, ipB] : List NetIP).take k)) :=
  ⟨by decide, C2_delete_stops_at_first_survivor aC2 "n" [ipA, ipB] (by decide)⟩

/-- C3, counterexample: in the reachable state `aCex` the address
`10.0.0.2` has refcount 1 but appears under no name, so `shouldAnnounce`
answers `dropReasonAnnounceIP`; the claimed equivalence
`announceable(ip) = None ↔ refcount[ip] > 0` fails. -/
theorem C3_announceable_iff_refcount_cex :
    ¬ (aCex.shouldAnnounce ipB = dropReasonNone ↔ 0 < aCex.ipRefcnt ipB.str) := by
  decide

/-- C3, amended: in every reachable state, `shouldAnnounce ip` returns
`dropReasonNone` iff `ip` appears under at least one name, and in that
case `refcount[ip] > 0`; the converse implication (positive refcount →
announceable) does not hold in general. -/
theorem C3_announceable_iff_listed (a : Announce) (h : Reachable a)
    (ip : NetIP) :
    (a.shouldAnnounce ip = dropReasonNone ↔ 0 < occList a.ips ip.str) ∧
    (a.shouldAnnounce ip = dropReasonNone → 0 < a.ipRefcnt ip.str) := by
  refine ⟨shouldAnnounce_eq_none_iff a ip, fun hN => ?_⟩
  have hocc := (shouldAnnounce_eq_none_iff a ip).1 hN
  have hinv := regInv_reachable a h ip.str
  omega

def aW3 : Announce :=
  run (initState [] []) [Call.set "n" ipA]

/-- C3, witness: the amended statement at the reachable state that holds
just `("n", 10.0.0.1)`. -/
theorem C3_witness :
    Reachable aW3 ∧
    ((aW3.shouldAnnounce ipA = dropReasonNone ↔ 0 < occList aW3.ips ipA.str) ∧
     (aW3.shouldAnnounce ipA = dropReasonNone → 0 < aW3.ipRefcnt ipA.str)) :=
  ⟨⟨[], [], [Call.set "n" ipA], rfl⟩,
   C3_announceable_iff_listed aW3 ⟨[], [], [Call.set "n" ipA], rfl⟩ ipA⟩

/-- C4 (code bug): a scan over the NDP-eligible interface `if6` while
`2001:db8::1` is registered with positive refcount does create a new NDP
responder (`createdNDP = [1]`), but the source performs no `Watch` call
at creation (`watchCalls = []`), so the recreated responder's joined
multicast groups do not cover the announceable IPv6 IPs, contrary to the
claim (and to §9 of the specification, which requires the re-join). -/
theorem C4_new_responder_not_rewatched :
    (a4.updateInterfaces [if6]).2.createdNDP = [1] ∧
    0 < a4.ipRefcnt ip6.str ∧
    (a4.updateInterfaces [if6]).2.watchCalls = [] := by
  decide

/-- C5 (confirmed): in every reachable state, `SetBalancer(name, ip)`
appends `(name, ip)` to the registry; its event trace consists of a
`Watch` on every current NDP responder exactly when `ip` had refcount 0
before the call, always followed by the spam enqueue (also on repeat
calls for an already-referenced `ip`). -/
theorem C5_setBalancer_append_watch_spam (a : Announce) (h : Reachable a)
    (name : String) (ip : NetIP) :
    (a.SetBalancer name ip).1.ips.lookup name
        = some (((a.ips.lookup name).getD []) ++ [ip]) ∧
    (a.SetBalancer name ip).2
        = (if a.ipRefcnt ip.str = 0
           then a.ndps.map (fun i => Event.watch i ip) else [])
          ++ [Event.spam ip] := by
  have hnn : (0:Int) ≤ a.ipRefcnt ip.str := by
    have h1 : (0:Int) ≤ (occList a.ips ip.str : Int) := Int.natCast_nonneg _
    have h2 := regInv_reachable a h ip.str
    omega
  constructor
  · show (upsertIPs a.ips name ip).lookup name = _
    exact lookup_upsertIPs a.ips name ip
  · show (if a.ipRefcnt ip.str + 1 > 1 then []
        else a.ndps.map (fun i => Event.watch i ip)) ++ [Event.spam ip] = _
    by_cases h0 : a.ipRefcnt ip.str = 0
    · rw [h0]
      norm_num
    · have hgt : a.ipRefcnt ip.str + 1 > 1 := by omega
      rw [if_pos hgt, if_neg h0]

/-- C5, witness: the statement at the fresh announcer with one NDP
responder (index 7): the first claim of `10.0.0.1` watches and spams. -/
theorem C5_witness :
    Reachable (initState [] [7]) ∧
    (((initState [] [7]).SetBalancer "t" ipA).1.ips.lookup "t"
        = some ((((initState [] [7]).ips.lookup "t").getD []) ++ [ipA]) ∧
     ((initState [] [7]).SetBalancer "t" ipA).2
        = (if (initState [] [7]).ipRefcnt ipA.str = 0
           then (initState [] [7]).ndps.map (fun i => Event.watch i ipA) else [])
          ++ [Event.spam ipA]) :=
  ⟨⟨[], [7], [], rfl⟩,
   C5_setBalancer_append_watch_spam (initState [] [7]) ⟨[], [7], [], rfl⟩ "t" ipA⟩

/-- C6 (confirmed): whenever the refcount of `ip` is `≤ 0`, `gratuitous`
returns without emitting any frame, on any state. -/
theorem C6_no_frame_at_zero_refcount (a : Announce) (ip : NetIP)
    (h : a.ipRefcnt ip.str ≤ 0) :
    a.gratuitous ip = [] := by
  unfold Announce.gratuitous
  rw [if_pos h]

/-- C6, witness: a fresh announcer with responders on both families
emits nothing for `10.0.0.1`, whose refcount is 0. -/
theorem C6_witness :
    (initState [1] [2]).ipRefcnt ipA.str ≤ 0 ∧
    (initState [1] [2]).gratuitous ipA = [] :=
  ⟨by decide, C6_no_frame_at_zero_refcount (initState [1] [2]) ipA (by decide)⟩

/-- C7 (confirmed): on scheduler input `ip` at time `now`, the deadline
of `ip` is set to `now + 5 s` (refreshing any existing deadline);
`gratuitous` is invoked immediately exactly when `ip` was not already in
the deadline map; and if the map was empty before the input the ticker
is armed with a 1100 ms period. -/
theorem C7_spamInput_behavior (s : SpamState) (ip : NetIP) (now : Int) :
    findDeadline (spamInput s ip now).1.m ip.str = some (now + 5000) ∧
    (spamInput s ip now).2
      = (if (findDeadline s.m ip.str).isSome then [] else [ip]) ∧
    (s.m = [] → (spamInput s ip now).1.ticker = some 1100) := by
  refine ⟨?_, ?_, ?_⟩
  · by_cases hp : (findDeadline s.m ip.str).isSome
    · simp [spamInput, hp, findDeadline_setDeadline]
    · simp [spamInput, hp, findDeadline_setDeadline]
  · by_cases hp : (findDeadline s.m ip.str).isSome
    · simp [spamInput, hp]
    · simp [spamInput, hp]
  · intro hm
    simp [spamInput, hm, findDeadline]

def sW7 : SpamState :=
  { m := [], ticker := none }

/-- C7, witness: input of `10.0.0.1` at time 0 into the empty, stopped
scheduler. -/
theorem C7_witness :
    findDeadline (spamInput sW7 ipA 0).1.m ipA.str = some (0 + 5000) ∧
    (spamInput sW7 ipA 0).2
      = (if (findDeadline sW7.m ipA.str).isSome then [] else [ipA]) ∧
    (sW7.m = [] → (spamInput sW7 ipA 0).1.ticker = some 1100) :=
  C7_spamInput_behavior sW7 ipA 0

/-- C8 (confirmed): on a timer tick at time `now`, exactly the entries
with `now > T_stop` are removed and each surviving entry produces
exactly one `gratuitous` invocation (in map order, no invocation for
removed entries); the ticker is stopped when the map has become empty
and is left untouched otherwise. -/
theorem C8_spamTick_behavior (s : SpamState) (now : Int) :
    (spamTick s now).1.m = s.m.filter (fun e => decide (¬ now > e.2)) ∧
    (spamTick s now).2
      = (s.m.filter (fun e => decide (¬ now > e.2))).map Prod.fst ∧
    ((spamTick s now).1.m = [] → (spamTick s now).1.ticker = none) ∧
    ((spamTick s now).1.m ≠ [] → (spamTick s now).1.ticker = s.ticker) := by
  have h := spamTickLoop_eq now s.m
  refine ⟨?_, ?_, ?_, ?_⟩
  · show (spamTickLoop now s.m).1 = _
    rw [h]
  · show (spamTickLoop now s.m).2 = _
    rw [h]
  · intro hm
    show (if (spamTickLoop now s.m).1 = [] then none else s.ticker) = none
    exact if_pos hm
  · intro hm
    show (if (spamTickLoop now s.m).1 = [] then none else s.ticker) = s.ticker
    exact if_neg hm

def sW8 : SpamState :=
  { m := [(ipA, 3), (ipB, 20)], ticker := some 1100 }

/-- C8, witness: a tick at time 10 over a map holding a stale entry
(deadline 3) and a live one (deadline 20). -/
theorem C8_witness :
    (spamTick sW8 10).1.m = sW8.m.filter (fun e => decide (¬ (10:Int) > e.2)) ∧
    (spamTick sW8 10).2
      = (sW8.m.filter (fun e => decide (¬ (10:Int) > e.2))).map Prod.fst ∧
    ((spamTick sW8 10).1.m = [] → (spamTick sW8 10).1.ticker = none) ∧
    ((spamTick sW8 10).1.m ≠ [] → (spamTick sW8 10).1.ticker = sW8.ticker) :=
  C8_spamTick_behavior sW8 10

/-- C9 (confirmed): for an IP with positive refcount, `gratuitous` emits
on every responder of the matching address family and on no responder of
the other family: every ARP responder when `To4() != nil`, every NDP
responder otherwise. -/
theorem C9_gratuitous_matching_family (a : Announce) (ip : NetIP)
    (h : 0 < a.ipRefcnt ip.str) :
    (ip.v4 = true → a.gratuitous ip = a.arps.map (fun i => Event.gratARP i ip)) ∧
    (ip.v4 = false → a.gratuitous ip = a.ndps.map (fun i => Event.gratNDP i ip)) := by
  have hn : ¬ a.ipRefcnt ip.str ≤ 0 := by omega
  unfold Announce.gratuitous
  rw [if_neg hn]
  constructor <;> intro hv <;> simp [hv]

def aW9 : Announce :=
  run (initState [1, 2] [5]) [Call.set "s" ipA]

/-- C9, witness: the IPv4 address `10.0.0.1` with refcount 1 is emitted
on both ARP responders and on no NDP responder. -/
theorem C9_witness :
    0 < aW9.ipRefcnt ipA.str ∧
    ((ipA.v4 = true → aW9.gratuitous ipA = aW9.arps.map (fun i => Event.gratARP i ipA)) ∧
     (ipA.v4 = false → aW9.gratuitous ipA = aW9.ndps.map (fun i => Event.gratNDP i ipA))) :=
  ⟨by decide, C9_gratuitous_matching_family aW9 ipA (by decide)⟩

/-- C10 (confirmed): `DeleteBalancer(name)` removes the name's entry
before any refcount processing, so `AnnounceName(name)` is false
afterwards even when the refcount loop stopped early; and if `name` was
absent the call returns the state unchanged with no events. -/
theorem C10_delete_removes_name (a : Announce) (name : String) :
    (a.DeleteBalancer name).1.AnnounceName name = false ∧
    (a.ips.lookup name = none → a.DeleteBalancer name = (a, [])) := by
  constructor
  · cases hl : a.ips.lookup name with
    | none =>
      rw [DeleteBalancer_none a name hl]
      simp [Announce.AnnounceName, hl]
    | some l =>
      rw [DeleteBalancer_some a name l hl]
      show ((eraseName a.ips name).lookup name).isSome = false
      rw [lookup_eraseName]
      rfl
  · intro hl
    exact DeleteBalancer_none a name hl

/-- C10, witness: deleting the absent name `"zzz"` from `aCex` leaves
the state unchanged, and `AnnounceName` is false afterwards. -/
theorem C10_witness :
    aCex.ips.lookup "zzz" = none ∧
    (aCex.DeleteBalancer "zzz").1.AnnounceName "zzz" = false ∧
    aCex.DeleteBalancer "zzz" = (aCex, []) :=
  ⟨by decide, (C10_delete_removes_name aCex "zzz").1,
   (C10_delete_removes_name aCex "zzz").2 (by decide)⟩
